import Mathlib

/-!
Shallow embedding of the model-identity-resolution and incremental-publishing
pipeline of `scripts/scan_and_build.py`, together with proofs about the
properties claimed of it.

Strings are modelled as Lean `String`/`List Char`; modification times as `Nat`
(seconds); the JSON OCR cache as an association list over a small JSON value
type; the filesystem as explicit association lists from paths to entries.
Python regular expressions are embedded as executable matching functions on
character lists, following the exact patterns of the source:
`MODEL_RE`, `BARE_MODEL_PREFIX_RE`, the camera-roll pattern, the leading-token
pattern and the bare-token findall of `extract_model_from_text`.
-/

namespace PhotoSite

/-- Whitespace characters as recognised by Python `str.strip()` / `\s`
(restricted to the repertoire this pipeline encounters). -/
def isPyWS (c : Char) : Bool :=
  c = ' ' || c = '\t' || c = '\n' || c = '\r' ||
  c = Char.ofNat 11 || c = Char.ofNat 12 || c = ' ' || c = '　'

/-- Character class `[A-Z0-9._-]` of `sanitize_model_code`. -/
def sanChar (c : Char) : Bool :=
  ('A' ≤ c && c ≤ 'Z') || ('0' ≤ c && c ≤ '9') || c = '.' || c = '_' || c = '-'

/-- Characters stripped from both ends by `m.strip("-._")`. -/
def isStripSet (c : Char) : Bool :=
  c = '-' || c = '.' || c = '_'

/-- Drop characters satisfying `p` from both ends of a character list,
as Python `str.strip` does. -/
def stripEnds (p : Char → Bool) (l : List Char) : List Char :=
  ((l.dropWhile p).reverse.dropWhile p).reverse

/-- Embedding of `re.sub(r"[^A-Z0-9._-]+", "-", m)`: each maximal run of
characters outside the class becomes a single dash. The flag records whether
the previous character was part of such a run (in which case the run's dash
has already been emitted). -/
def replBadAux : Bool → List Char → List Char
  | _, [] => []
  | inBad, c :: cs =>
    if sanChar c then c :: replBadAux false cs
    else if inBad then replBadAux true cs
    else '-' :: replBadAux true cs

/-- Replace each maximal run of characters outside `[A-Z0-9._-]` by `-`. -/
def replBad (l : List Char) : List Char :=
  replBadAux false l

/-- Embedding of `re.sub(r"-+", "-", m)`: collapse runs of dashes. The flag
records whether the previously emitted character was a dash. -/
def collapseDashAux : Bool → List Char → List Char
  | _, [] => []
  | prevDash, c :: cs =>
    if c = '-' then
      if prevDash then collapseDashAux true cs
      else '-' :: collapseDashAux true cs
    else c :: collapseDashAux false cs

/-- Collapse runs of dashes to a single dash. -/
def collapseDash (l : List Char) : List Char :=
  collapseDashAux false l

/-- Embedding of `sanitize_model_code` from `scan_and_build.py` applied to the
character list: strip whitespace, uppercase, replace bad runs by `-`,
collapse dashes, strip `-._` from the ends. -/
def sanitizeCore (l : List Char) : List Char :=
  stripEnds isStripSet
    (collapseDash (replBad ((stripEnds isPyWS l).map Char.toUpper)))

/-- Embedding of `sanitize_model_code`: the empty result becomes `"UNKNOWN"`. -/
def sanitize_model_code (model : String) : String :=
  let r := sanitizeCore model.data
  if r = [] then "UNKNOWN" else String.mk r

/-- Embedding of `pathlib.Path(name).stem`: everything before the last dot,
provided that dot is neither the first nor the last character. -/
def pathStem (name : String) : String :=
  let r := name.data.reverse
  let j := r.findIdx (fun c => c = '.')
  if 1 ≤ j ∧ j + 2 ≤ r.length then String.mk ((r.drop (j + 1)).reverse)
  else name

/-- Embedding of `pathlib.Path(name).suffix`. -/
def pathSuffix (name : String) : String :=
  let r := name.data.reverse
  let j := r.findIdx (fun c => c = '.')
  if 1 ≤ j ∧ j + 2 ≤ r.length then String.mk ((r.take (j + 1)).reverse)
  else ""

/-- Lowercase a string character by character (ASCII, as used for extension
comparisons). -/
def toLowerStr (s : String) : String :=
  String.mk (s.data.map Char.toLower)

/-- Uppercase a string character by character (ASCII). -/
def toUpperStr (s : String) : String :=
  String.mk (s.data.map Char.toUpper)

/-- Character class `[A-Za-z0-9\-_.]` used for the token tail of `MODEL_RE`
and `BARE_MODEL_PREFIX_RE`. -/
def isTokChar (c : Char) : Bool :=
  c.isAlphanum || c = '-' || c = '_' || c = '.'

/-- Separator class `[\s_\-:：]` of `MODEL_RE`. -/
def isSepChar (c : Char) : Bool :=
  isPyWS c || c = '_' || c = '-' || c = ':' || c = '：'

/-- Case-insensitive literal match: consume `pat` from the front of `l`
and return the remainder. -/
def matchCI : List Char → List Char → Option (List Char)
  | [], rest => some rest
  | _ :: _, [] => none
  | p :: ps, c :: cs => if c.toLower = p.toLower then matchCI ps cs else none

/-- Match the label alternation `(?:model|型号|type)` of `MODEL_RE` at the
current position, returning the remainder of the input. The three
alternatives begin with distinct characters, so at most one matches. -/
def labelAt (l : List Char) : Option (List Char) :=
  match matchCI "model".data l with
  | some r => some r
  | none =>
    match matchCI "型号".data l with
    | some r => some r
    | none => matchCI "type".data l

/-- Match the capture group `([A-Za-z0-9][A-Za-z0-9\-_.]{1,32})` of `MODEL_RE`
greedily at the current position. The separator class and `[A-Za-z0-9]` are
disjoint, so no backtracking into the separators can occur. -/
def tokenAt (l : List Char) : Option (List Char) :=
  match l with
  | [] => none
  | c :: cs =>
    if c.isAlphanum then
      let rest := (cs.takeWhile isTokChar).take 32
      if 1 ≤ rest.length then some (c :: rest) else none
    else none

/-- Try a full `MODEL_RE` match anchored at the current position. -/
def modelReAt (l : List Char) : Option (List Char) :=
  match labelAt l with
  | some r => tokenAt (r.dropWhile isSepChar)
  | none => none

/-- Embedding of `MODEL_RE.search`: return the capture group of the leftmost
match, scanning positions left to right. -/
def modelReSearch : List Char → Option (List Char)
  | [] => none
  | c :: cs =>
    match modelReAt (c :: cs) with
    | some tok => some tok
    | none => modelReSearch cs

/-- Embedding of `BARE_MODEL_PREFIX_RE.match(base)` (the pattern is anchored
on both sides): the whole stem is one bare model token. -/
def bareModelMatch (base : String) : Bool :=
  match base.data with
  | [] => false
  | c :: cs => c.isAlphanum && cs.all isTokChar && 1 ≤ cs.length && cs.length ≤ 32

/-- Embedding of `re.match(r"(?i)^img_\d+$", base)`: a camera-roll default
name. -/
def isImgDefault (base : String) : Bool :=
  match matchCI "img_".data base.data with
  | some rest => !rest.isEmpty && rest.all Char.isDigit
  | none => false

/-- Embedding of `re.match(r"(?i)^img$", cand)`. -/
def isImgWord (cand : List Char) : Bool :=
  match matchCI "img".data cand with
  | some [] => true
  | _ => false

/-- One step of the split-on-separator fallback of
`guess_model_from_filename`: Python runs `base.split(sep)[0]` only when `sep`
occurs in `base`, and keeps the candidate only when its length is in `[2, 40]`
and it is not the word `img`; otherwise the loop falls through to the next
separator. -/
def trySep (sep : Char) (base : List Char) : Option (List Char) :=
  if base.contains sep then
    let cand := base.takeWhile (fun c => c ≠ sep)
    if 2 ≤ cand.length && cand.length ≤ 40 && !isImgWord cand then some cand
    else none
  else none

/-- The separator loop `for sep in ("_", "-", " ")` of
`guess_model_from_filename`. -/
def guessSplit (base : List Char) : Option (List Char) :=
  match trySep '_' base with
  | some c => some c
  | none =>
    match trySep '-' base with
    | some c => some c
    | none => trySep ' ' base

/-- Embedding of `guess_model_from_filename` from `scan_and_build.py`. -/
def guess_model_from_filename (name : String) : String :=
  match modelReSearch name.data with
  | some tok => String.mk tok
  | none =>
    let base := pathStem name
    if bareModelMatch base then
      if isImgDefault base then "unknown" else base
    else if isImgDefault base then "unknown"
    else
      match guessSplit base.data with
      | some c => String.mk c
      | none => "unknown"

/-- Uppercase token start class `[A-Z0-9]` of the OCR-text token patterns. -/
def isUpTokStart (c : Char) : Bool :=
  ('A' ≤ c && c ≤ 'Z') || c.isDigit

/-- Uppercase token tail class `[A-Z0-9\-_.]`. -/
def isUpTokChar (c : Char) : Bool :=
  isUpTokStart c || c = '-' || c = '_' || c = '.'

/-- Word characters for the `\b` assertions of the OCR-text patterns: Python
`\w` on the repertoire this pipeline sees (ASCII alphanumerics, underscore,
CJK ideographs). -/
def isWordChar (c : Char) : Bool :=
  c.isAlphanum || c = '_' || (0x4E00 ≤ c.toNat && c.toNat ≤ 0x9FFF)

/-- Does a `\b` word boundary hold between a last consumed character and the
following character (`none` meaning end of input)? -/
def boundaryAfter (last : Char) (next : Option Char) : Bool :=
  match next with
  | none => isWordChar last
  | some n => isWordChar last != isWordChar n

/-- Backtracking for the greedy `{2,32}` quantifier followed by `\b`, on the
reversed candidate tail: starting from the maximal tail, give characters back
to the remainder until the trailing word boundary holds; fail below the
minimum of two tail characters. The candidate's last character is the head of
`extraRev`. -/
def shrinkTokRev (first : Char) : List Char → List Char →
    Option (List Char × List Char)
  | [], _ => none
  | last :: more, rest =>
    if (last :: more).length < 2 then none
    else if boundaryAfter last rest.head? then
      some (first :: (last :: more).reverse, rest)
    else shrinkTokRev first more (last :: rest)

/-- Match the greedy `{2,32}` tail `extra` (maximal) followed by `\b`,
backtracking as the regex engine does. Returns the matched token (with its
first character) and the remaining input. -/
def shrinkTok (first : Char) (extra rest : List Char) :
    Option (List Char × List Char) :=
  shrinkTokRev first extra.reverse rest

/-- Embedding of `re.match(r"\s*([A-Z0-9][A-Z0-9\-_.]{2,32})\b", t.upper())`:
the leading-token heuristic of `extract_model_from_text`. The whitespace
class and `[A-Z0-9]` are disjoint, so `\s*` needs no backtracking. -/
def leadToken (up : List Char) : Option (List Char) :=
  match up.dropWhile isPyWS with
  | [] => none
  | c :: cs =>
    if isUpTokStart c then
      let extra := (cs.takeWhile isUpTokChar).take 32
      (shrinkTok c extra (cs.drop extra.length)).map (fun r => r.1)
    else none

/-- Fuel-driven embedding of
`re.findall(r"\b[A-Z0-9][A-Z0-9\-_.]{2,32}\b", t.upper())`: scan left to
right; a leading `\b` requires the previous character to be a non-word
character (or the start of the input); matches are non-overlapping and the
scan resumes after each match. The fuel equals the input length, which each
step strictly consumes, so it never runs out. -/
def findallTokF : Nat → Option Char → List Char → List (List Char)
  | 0, _, _ => []
  | _ + 1, _, [] => []
  | fuel + 1, prev, c :: cs =>
    let prevOk := match prev with
      | none => true
      | some p => !isWordChar p
    if prevOk && isUpTokStart c then
      let extra := (cs.takeWhile isUpTokChar).take 32
      match shrinkTok c extra (cs.drop extra.length) with
      | some (tok, rest) => tok :: findallTokF fuel (some (tok.getLastD ' ')) rest
      | none => findallTokF fuel (some c) cs
    else findallTokF fuel (some c) cs

/-- All bare-token matches in the uppercased OCR text. -/
def findallTok (up : List Char) : List (List Char) :=
  findallTokF up.length none up

/-- The noise-word blacklist of `extract_model_from_text`. -/
def ocrBlacklist : List String :=
  ["WWW", "HTTP", "HTTPS", "MADE", "CHINA", "APPLE", "IPHONE", "IOS",
   "PCS", "S", "M", "L", "XL", "XXL"]

/-- Embedding of `re.match(r"^IMG_\d+$", cand)` on an uppercase token. -/
def isImgDigitsUC (l : List Char) : Bool :=
  match l with
  | 'I' :: 'M' :: 'G' :: '_' :: rest => !rest.isEmpty && rest.all Char.isDigit
  | _ => false

/-- Normalisation `text.replace("　", " ")` of `extract_model_from_text`. -/
def normText (text : String) : List Char :=
  text.data.map (fun c => if c = '　' then ' ' else c)

/-- The candidate-scan fallback of `extract_model_from_text`: all bare tokens
of the uppercased text, minus the blacklist and camera-roll shapes; the first
survivor wins, else `unknown`. -/
def scanCandidates (up : List Char) : String :=
  let cands := (findallTok up).filter
    (fun c => !(ocrBlacklist.contains (String.mk c)) && !isImgDigitsUC c)
  match cands with
  | c :: _ => String.mk c
  | [] => "unknown"

/-- Embedding of `extract_model_from_text` from `scan_and_build.py`. -/
def extract_model_from_text (text : String) : String :=
  if text = "" then "unknown"
  else
    let t := normText text
    match modelReSearch t with
    | some tok => String.mk tok
    | none =>
      let up := t.map Char.toUpper
      match leadToken up with
      | some cand =>
        if isImgDigitsUC cand then scanCandidates up else String.mk cand
      | none => scanCandidates up

/-- JSON values, as far as the OCR cache file can contain them: the cache is
a JSON object mapping path strings to entries; an entry read back from disk
may have any shape. -/
inductive JsonV where
  | jstr : String → JsonV
  | jint : Int → JsonV
  | jdict : List (String × JsonV) → JsonV
  | jnull : JsonV
deriving Repr

/-- The in-memory OCR cache: a JSON object, keys are resolved asset paths. -/
abbrev OcrCache := List (String × JsonV)

/-- Lookup in a string-keyed association list (Python `dict.get`). -/
def lookupStr {α : Type} : List (String × α) → String → Option α
  | [], _ => none
  | (k, v) :: rest, key => if k = key then some v else lookupStr rest key

/-- Update or insert in a string-keyed association list
(Python `dict[key] = value`). -/
def setStr {α : Type} : List (String × α) → String → α → List (String × α)
  | [], key, v => [(key, v)]
  | (k, w) :: rest, key, v =>
    if k = key then (key, v) :: rest else (k, w) :: setStr rest key v

/-- The cache-hit test of `ocr_text_for_image` (lines 106-108): the stored
entry must be a dict whose `mtime` equals the supplied one and whose `text`
is a string. -/
def cacheGet (cache : OcrCache) (key : String) (mtime : Int) : Option String :=
  match lookupStr cache key with
  | some (JsonV.jdict fields) =>
    match lookupStr fields "mtime" with
    | some (JsonV.jint m) =>
      if m = mtime then
        match lookupStr fields "text" with
        | some (JsonV.jstr t) => some t
        | _ => none
      else none
    | _ => none
  | _ => none

/-- The cache write of `ocr_text_for_image` (line 119):
`cache[key] = {"mtime": mtime, "text": text}`. -/
def cachePut (cache : OcrCache) (key : String) (mtime : Int) (text : String) :
    OcrCache :=
  setStr cache key (JsonV.jdict [("mtime", JsonV.jint mtime), ("text", JsonV.jstr text)])

/-- Result of one `ocr_text_for_image` call: the text returned, the cache
afterwards, and whether the external recognition process was invoked. -/
structure OcrOut where
  text : String
  cache : OcrCache
  invoked : Bool
deriving Repr

/-- Embedding of `ocr_text_for_image`. `statMtime` is the result of
`path.stat()` (`none` when the file does not exist, in which case the
`FileNotFoundError` propagates: the stat happens before the `try` block, which
guards only the subprocess call). `runSwift` is the external OCR process:
`some out` is its decoded standard output, `none` any failure (process error,
timeout); either way the outcome is written to the cache before returning. -/
def ocr_text_for_image (runSwift : Option String) (statMtime : Option Int)
    (key : String) (cache : OcrCache) : Except Unit OcrOut :=
  match statMtime with
  | none => Except.error ()
  | some mtime =>
    match cacheGet cache key mtime with
    | some t => Except.ok ⟨t, cache, false⟩
    | none =>
      let text := runSwift.getD ""
      Except.ok ⟨text, cachePut cache key mtime text, true⟩

/-- A source file in the inbox: its filename and modification time. -/
structure SrcFile where
  name : String
  mtime : Nat
deriving DecidableEq, Repr

/-- Published renditions of one kind (large or thumbnail): a map from
(bucket, base name) to the rendition's modification time. -/
abbrev AssetMap := List ((String × String) × Nat)

/-- The identifier-to-files mapping (`by_model`, a `defaultdict(list)`);
insertion order is preserved as in a Python dict. -/
abbrev Buckets := List (String × List SrcFile)

/-- Lookup a rendition's mtime. -/
def lookupA : AssetMap → String × String → Option Nat
  | [], _ => none
  | (k, m) :: rest, key => if k = key then some m else lookupA rest key

/-- Create or overwrite a rendition entry. -/
def assetSet : AssetMap → String × String → Nat → AssetMap
  | [], key, m => [(key, m)]
  | (k, w) :: rest, key, m =>
    if k = key then (key, m) :: rest else (k, w) :: assetSet rest key m

/-- Remove a rendition entry (the source side of `shutil.move`). -/
def assetDel : AssetMap → String × String → AssetMap
  | [], _ => []
  | (k, w) :: rest, key =>
    if k = key then assetDel rest key else (k, w) :: assetDel rest key

/-- Lookup a bucket's file list. -/
def lookupBucket : Buckets → String → Option (List SrcFile)
  | [], _ => none
  | (k, fs) :: rest, key => if k = key then some fs else lookupBucket rest key

/-- Append a file to a bucket, creating the bucket at the end if absent
(`defaultdict(list)` append, preserving dict insertion order). -/
def addToBucket : Buckets → String → SrcFile → Buckets
  | [], key, f => [(key, [f])]
  | (k, fs) :: rest, key, f =>
    if k = key then (k, fs ++ [f]) :: rest else (k, fs) :: addToBucket rest key f

/-- The supported image extensions `IMG_EXTS`. -/
def imgExts : List String :=
  [".jpg", ".jpeg", ".png", ".webp", ".heic"]

/-- Does a filename have a supported image extension
(`p.suffix.lower() in IMG_EXTS`)? -/
def isImgName (n : String) : Bool :=
  imgExts.contains (toLowerStr (pathSuffix n))

/-- Code-point lexicographic comparison, the order Python's `sorted` uses on
path strings. -/
def charListLt : List Char → List Char → Bool
  | [], [] => false
  | [], _ :: _ => true
  | _ :: _, [] => false
  | a :: as, b :: bs =>
    if a < b then true else if b < a then false else charListLt as bs

/-- Name comparison for the inbox scan order. -/
def nameLt (a b : String) : Bool :=
  charListLt a.data b.data

/-- Insertion of a file into a name-sorted list (`sorted(INBOX.rglob("*"))`
restricted to a flat inbox). -/
def insertByName (f : SrcFile) : List SrcFile → List SrcFile
  | [] => [f]
  | g :: rest =>
    if nameLt f.name g.name then f :: g :: rest else g :: insertByName f rest

/-- Sort inbox files by name. -/
def sortByName (l : List SrcFile) : List SrcFile :=
  l.foldr insertByName []

/-- The Scanner: enumerate image files in stable order and pair each with its
filename-derived code (the `items` list of `main`). -/
def scanItems (inbox : List SrcFile) : List (String × SrcFile) :=
  (sortByName (inbox.filter (fun f => isImgName f.name))).map
    (fun f => (guess_model_from_filename f.name, f))

/-- Group items into `by_model`. -/
def groupItems (items : List (String × SrcFile)) : Buckets :=
  items.foldl (fun acc it => addToBucket acc it.1 it.2) []

/-- The freshness test `needs_update` of the publish pass: regenerate when the
rendition does not exist or the source is strictly newer. -/
def needs_update (entry : Option Nat) (srcMtime : Nat) : Bool :=
  match entry with
  | none => true
  | some m => srcMtime > m

/-- One logged resize operation: bucket, base name, and whether it was the
thumbnail rendition. -/
structure ROp where
  bucket : String
  base : String
  thumb : Bool
deriving DecidableEq, Repr

/-- Publish one source file into one bucket: regenerate the large and the
thumbnail rendition when stale; a regenerated rendition's mtime is `now` (the
`sips` run rewrites the temporary copy before it is moved into place). -/
def publishStep (now : Nat) (acc : AssetMap × AssetMap × List ROp)
    (p : String × SrcFile) : AssetMap × AssetMap × List ROp :=
  let b := p.1
  let base := pathStem p.2.name
  let srcM := p.2.mtime
  let acc1 :=
    if needs_update (lookupA acc.1 (b, base)) srcM then
      (assetSet acc.1 (b, base) now, acc.2.1, acc.2.2 ++ [⟨b, base, false⟩])
    else acc
  if needs_update (lookupA acc1.2.1 (b, base)) srcM then
    (acc1.1, assetSet acc1.2.1 (b, base) now, acc1.2.2 ++ [⟨b, base, true⟩])
  else acc1

/-- Flatten the bucket map into the (bucket, file) sequence the nested publish
loops traverse. -/
def bucketPairs (bs : Buckets) : List (String × SrcFile) :=
  bs.foldr (fun bk acc => bk.2.map (fun f => (bk.1, f)) ++ acc) []

/-- The Publisher (first pass of `main`): mtime-gated regeneration of both
renditions of every file of every bucket. -/
def publishPass (bs : Buckets) (L T : AssetMap) (now : Nat) :
    AssetMap × AssetMap × List ROp :=
  (bucketPairs bs).foldl (publishStep now) (L, T, [])

/-- The resolved path of a published large rendition, used as OCR input and
cache key. -/
def largePath (bucket base : String) : String :=
  "assets/" ++ bucket ++ "/" ++ base ++ ".jpg"

/-- The OCR loop over the capped part of the unresolved bucket: each file's
published large rendition is recognised via `ocr_text_for_image` (stat first,
then cache, then subprocess), the resulting text is turned into a sanitized
code, and the file is grouped under it. Errors of the stat (missing rendition)
propagate. -/
def ocrLoop (swiftO : String → Option String) (L : AssetMap) :
    List SrcFile → Buckets → OcrCache → List SrcFile → List String →
    Except Unit (Buckets × OcrCache × List SrcFile × List String)
  | [], recl, cache, calls, swifts => Except.ok (recl, cache, calls, swifts)
  | f :: rest, recl, cache, calls, swifts =>
    let base := pathStem f.name
    let key := largePath "unknown" base
    match ocr_text_for_image (swiftO key)
        ((lookupA L ("unknown", base)).map Int.ofNat) key cache with
    | Except.error e => Except.error e
    | Except.ok o =>
      let code := sanitize_model_code (extract_model_from_text o.text)
      ocrLoop swiftO L rest (addToBucket recl code f) o.cache (calls ++ [f])
        (if o.invoked then swifts ++ [key] else swifts)

/-- Is a code one of the two "unresolved" sentinels skipped by migration and
renaming? -/
def sentinelCode (m : String) : Bool :=
  m = "UNKNOWN" || m = "unknown"

/-- Migrate one file's renditions from the unresolved bucket to its new
bucket (`shutil.move` when the source rendition exists). -/
def movePair (LT : AssetMap × AssetMap) (newModel : String) (f : SrcFile) :
    AssetMap × AssetMap :=
  let base := pathStem f.name
  let L :=
    match lookupA LT.1 ("unknown", base) with
    | some m => assetSet (assetDel LT.1 ("unknown", base)) (newModel, base) m
    | none => LT.1
  let T :=
    match lookupA LT.2 ("unknown", base) with
    | some m => assetSet (assetDel LT.2 ("unknown", base)) (newModel, base) m
    | none => LT.2
  (L, T)

/-- Asset migration over all reclassified buckets other than the sentinels. -/
def movePass (recl : Buckets) (L T : AssetMap) : AssetMap × AssetMap :=
  recl.foldl
    (fun LT bk =>
      if sentinelCode bk.1 then LT
      else bk.2.foldl (fun a f => movePair a bk.1 f) LT)
    (L, T)

/-- Does the inbox contain a file of this name (`target.exists()`)? -/
def inboxHas (inbox : List SrcFile) (n : String) : Bool :=
  inbox.any (fun g => g.name = n)

/-- A filesystem rename inside the inbox: the old entry disappears, the target
is overwritten if present, the mtime is preserved. -/
def inboxRename (inbox : List SrcFile) (oldN newN : String) (m : Nat) :
    List SrcFile :=
  (inbox.filter (fun g => g.name ≠ oldN && g.name ≠ newN)) ++ [⟨newN, m⟩]

/-- Source renaming for one reclassified file: only `.heic` sources whose stem
does not already spell the resolved code are renamed to `<code>.HEIC`, with a
collision-avoiding fallback name. -/
def renameStep (model : String) (acc : List SrcFile × List (String × String))
    (f : SrcFile) : List SrcFile × List (String × String) :=
  if toLowerStr (pathSuffix f.name) ≠ ".heic" then acc
  else if toUpperStr (pathStem f.name) = model then acc
  else
    let t0 := model ++ ".HEIC"
    let target := if inboxHas acc.1 t0 then model ++ "_" ++ f.name else t0
    (inboxRename acc.1 f.name target f.mtime, acc.2 ++ [(f.name, target)])

/-- Source renaming over all reclassified buckets other than the sentinels. -/
def renamePass (recl : Buckets) (inbox : List SrcFile) :
    List SrcFile × List (String × String) :=
  recl.foldl
    (fun acc bk =>
      if sentinelCode bk.1 then acc
      else bk.2.foldl (renameStep bk.1) acc)
    (inbox, [])

/-- The flattened (sanitized code, file) append sequence of the
`by_model` rebuild (lines 270-278): first every non-`unknown` Scanner bucket,
then every reclassified bucket. -/
def rebuildPairs (tmp recl : Buckets) : List (String × SrcFile) :=
  (tmp.foldr
    (fun bk acc =>
      if bk.1 = "unknown" then acc
      else bk.2.map (fun f => (sanitize_model_code bk.1, f)) ++ acc)
    [])
  ++ recl.foldr
    (fun bk acc => bk.2.map (fun f => (sanitize_model_code bk.1, f)) ++ acc)
    []

/-- The rebuilt final mapping. -/
def rebuild (tmp recl : Buckets) : Buckets :=
  (rebuildPairs tmp recl).foldl (fun acc p => addToBucket acc p.1 p.2) []

/-- The filesystem-and-cache state the pipeline reads and writes: the inbox,
the large and thumbnail rendition trees, and the persisted OCR cache. -/
structure St where
  inbox : List SrcFile
  largeA : AssetMap
  thumbA : AssetMap
  cache : OcrCache
deriving Repr

/-- Everything one run logs: resize operations, files passed to recognition,
external OCR process invocations, and source renames. -/
structure RunLog where
  resizes : List ROp
  ocrCalls : List SrcFile
  swiftCalls : List String
  renames : List (String × String)
deriving Repr

/-- The observable outcome of one run: the final state, the final
identifier-to-files mapping handed to the renderer, and the log. -/
structure RunOut where
  state : St
  mapping : Buckets
  log : RunLog
deriving Repr

/-- Embedding of `main` of `scan_and_build.py` (pages generation excluded):
scan, group, publish everything, then - only when an `unknown` bucket
exists - OCR the capped prefix of it, defer the rest to `UNKNOWN`, migrate
assets, rename sources, and rebuild the mapping with sanitized keys.
`swiftO` is the external OCR process, `cap` the `OCR_CAP` environment value,
`now` the wall-clock time stamped onto regenerated renditions. -/
def runPipeline (swiftO : String → Option String) (cap : Nat) (now : Nat)
    (s : St) : Except Unit RunOut :=
  let items := scanItems s.inbox
  let byModel := groupItems items
  let pub := publishPass byModel s.largeA s.thumbA now
  match lookupBucket byModel "unknown" with
  | none =>
    Except.ok ⟨⟨s.inbox, pub.1, pub.2.1, s.cache⟩, byModel, ⟨pub.2.2, [], [], []⟩⟩
  | some unknownFiles =>
    match ocrLoop swiftO pub.1 (unknownFiles.take cap) [] s.cache [] [] with
    | Except.error e => Except.error e
    | Except.ok (recl0, cache1, calls, swifts) =>
      let recl := (unknownFiles.drop cap).foldl
        (fun acc f => addToBucket acc "UNKNOWN" f) recl0
      let LT := movePass recl pub.1 pub.2.1
      let ir := renamePass recl s.inbox
      Except.ok ⟨⟨ir.1, LT.1, LT.2, cache1⟩, rebuild byModel recl,
        ⟨pub.2.2, calls, swifts, ir.2⟩⟩

/-! ### Helper lemmas on characters -/

theorem char_le_toNat {a b : Char} (h : a ≤ b) : a.toNat ≤ b.toNat := by
  simpa only [Char.le_def, UInt32.le_def, BitVec.le_def] using h

theorem char_ne_of_toNat_ne {a b : Char} (h : a.toNat ≠ b.toNat) : a ≠ b :=
  fun e => h (by rw [e])

theorem sanChar_toNat {c : Char} (h : sanChar c = true) :
    (65 ≤ c.toNat ∧ c.toNat ≤ 90) ∨ (48 ≤ c.toNat ∧ c.toNat ≤ 57) ∨
    c.toNat = 46 ∨ c.toNat = 95 ∨ c.toNat = 45 := by
  unfold sanChar at h
  simp only [Bool.or_eq_true, Bool.and_eq_true, decide_eq_true_eq] at h
  rcases h with (((⟨h1, h2⟩ | ⟨h1, h2⟩) | rfl) | rfl) | rfl
  · exact Or.inl ⟨char_le_toNat h1, char_le_toNat h2⟩
  · exact Or.inr (Or.inl ⟨char_le_toNat h1, char_le_toNat h2⟩)
  · exact Or.inr (Or.inr (Or.inl rfl))
  · exact Or.inr (Or.inr (Or.inr (Or.inl rfl)))
  · exact Or.inr (Or.inr (Or.inr (Or.inr rfl)))

theorem pyWS_not_sanChar {c : Char} (h : isPyWS c = true) : sanChar c = false := by
  unfold isPyWS at h
  simp only [Bool.or_eq_true, decide_eq_true_eq] at h
  rcases h with ((((((rfl | rfl) | rfl) | rfl) | rfl) | rfl) | rfl) | rfl <;> decide

theorem sanChar_not_pyWS {c : Char} (h : sanChar c = true) : isPyWS c = false := by
  cases hw : isPyWS c
  · rfl
  · rw [pyWS_not_sanChar hw] at h
    cases h

theorem sanChar_toUpper {c : Char} (h : sanChar c = true) : c.toUpper = c := by
  have hn := sanChar_toNat h
  unfold Char.toUpper
  rw [if_neg]
  rcases hn with ⟨a, b⟩ | ⟨a, b⟩ | a | a | a <;> omega

/-! ### Lemmas about the sanitizer -/

theorem mem_replBadAux {c : Char} :
    ∀ {b : Bool} {l : List Char}, c ∈ replBadAux b l → sanChar c = true := by
  intro b l
  induction l generalizing b with
  | nil => intro h; simp [replBadAux] at h
  | cons x xs ih =>
    intro h
    unfold replBadAux at h
    by_cases hx : sanChar x = true
    · rw [if_pos hx] at h
      rcases List.mem_cons.mp h with rfl | h2
      · exact hx
      · exact ih h2
    · rw [if_neg hx] at h
      cases b with
      | true => exact ih (by simpa using h)
      | false =>
        rcases List.mem_cons.mp (by simpa using h) with rfl | h2
        · decide
        · exact ih h2

theorem replBadAux_eq_self {l : List Char} (h : ∀ c ∈ l, sanChar c = true) :
    ∀ b, replBadAux b l = l := by
  induction l with
  | nil => intro b; rfl
  | cons x xs ih =>
    intro b
    unfold replBadAux
    rw [if_pos (h x (List.mem_cons_self x xs))]
    rw [ih (fun c hc => h c (List.mem_cons_of_mem x hc))]

/-- The no-adjacent-dashes invariant produced by dash collapsing. -/
def NoDD (l : List Char) : Prop :=
  l.Chain' (fun a b => ¬(a = '-' ∧ b = '-'))

theorem mem_collapseDashAux {c : Char} :
    ∀ {b : Bool} {l : List Char}, c ∈ collapseDashAux b l → c ∈ l ∨ c = '-' := by
  intro b l
  induction l generalizing b with
  | nil => intro h; simp [collapseDashAux] at h
  | cons x xs ih =>
    intro h
    unfold collapseDashAux at h
    by_cases hx : x = '-'
    · rw [if_pos hx] at h
      cases b with
      | true =>
        rcases ih (by simpa using h) with h2 | h2
        · exact Or.inl (List.mem_cons_of_mem x h2)
        · exact Or.inr h2
      | false =>
        rcases List.mem_cons.mp (by simpa using h) with rfl | h2
        · exact Or.inr rfl
        · rcases ih h2 with h3 | h3
          · exact Or.inl (List.mem_cons_of_mem x h3)
          · exact Or.inr h3
    · rw [if_neg hx] at h
      rcases List.mem_cons.mp h with rfl | h2
      · exact Or.inl (List.mem_cons_self _ _)
      · rcases ih h2 with h3 | h3
        · exact Or.inl (List.mem_cons_of_mem x h3)
        · exact Or.inr h3

theorem head?_collapseDashAux_true :
    ∀ {l : List Char}, (collapseDashAux true l).head? ≠ some '-' := by
  intro l
  induction l with
  | nil => simp [collapseDashAux]
  | cons x xs ih =>
    unfold collapseDashAux
    by_cases hx : x = '-'
    · rw [if_pos hx]
      exact ih
    · rw [if_neg hx]
      simpa using hx

theorem collapseDashAux_noDD : ∀ (b : Bool) (l : List Char), NoDD (collapseDashAux b l) := by
  intro b l
  induction l generalizing b with
  | nil => cases b <;> exact List.chain'_nil
  | cons x xs ih =>
    unfold collapseDashAux
    by_cases hx : x = '-'
    · rw [if_pos hx]
      cases b with
      | true => exact ih true
      | false =>
        refine List.chain'_cons'.mpr ⟨?_, ih true⟩
        intro y hy
        intro ⟨_, hy2⟩
        exact head?_collapseDashAux_true (by rw [hy, hy2])
    · rw [if_neg hx]
      refine List.chain'_cons'.mpr ⟨?_, ih false⟩
      intro y _
      intro ⟨hx2, _⟩
      exact hx hx2

theorem collapseDashAux_eq_self :
    ∀ {l : List Char}, NoDD l →
      collapseDashAux false l = l ∧
      (l.head? ≠ some '-' → collapseDashAux true l = l) := by
  intro l
  induction l with
  | nil => exact fun _ => ⟨rfl, fun _ => rfl⟩
  | cons x xs ih =>
    intro h
    have hcs := ih h.tail
    constructor
    · unfold collapseDashAux
      by_cases hx : x = '-'
      · rw [if_pos hx]
        have hxs : xs.head? ≠ some '-' := by
          intro hh
          cases xs with
          | nil => simp at hh
          | cons y ys =>
            have := (List.chain'_cons'.mp h).1 y rfl
            simp at hh
            exact this ⟨hx, hh⟩
        rw [hcs.2 hxs, hx]
        rfl
      · rw [if_neg hx, hcs.1]
    · intro hx0
      have hx : ¬ x = '-' := by simpa using hx0
      unfold collapseDashAux
      rw [if_neg hx, hcs.1]

theorem dropWhile_eq_self_of_all {p : Char → Bool} :
    ∀ {l : List Char}, (∀ c ∈ l, p c = false) → l.dropWhile p = l := by
  intro l h
  cases l with
  | nil => rfl
  | cons x xs =>
    exact List.dropWhile_cons_of_neg (by simp [h x (List.mem_cons_self x xs)])

theorem mem_stripEnds {p : Char → Bool} {l : List Char} {c : Char}
    (h : c ∈ stripEnds p l) : c ∈ l := by
  unfold stripEnds at h
  rw [List.mem_reverse] at h
  have h2 := (List.dropWhile_suffix p).sublist.subset h
  rw [List.mem_reverse] at h2
  exact (List.dropWhile_suffix p).sublist.subset h2

theorem stripEnds_eq_self_of_all {p : Char → Bool} {l : List Char}
    (h : ∀ c ∈ l, p c = false) : stripEnds p l = l := by
  unfold stripEnds
  rw [dropWhile_eq_self_of_all h,
      dropWhile_eq_self_of_all (fun c hc => h c (List.mem_reverse.mp hc)),
      List.reverse_reverse]

theorem noDD_reverse {l : List Char} (h : NoDD l) : NoDD l.reverse := by
  rw [NoDD, List.chain'_reverse]
  exact h.imp (fun a b hab ⟨h1, h2⟩ => hab ⟨h2, h1⟩)

theorem noDD_stripEnds {p : Char → Bool} {l : List Char} (h : NoDD l) :
    NoDD (stripEnds p l) := by
  unfold stripEnds
  exact noDD_reverse ((noDD_reverse (h.suffix (List.dropWhile_suffix p))).suffix
    (List.dropWhile_suffix p))

theorem head?_dropWhile_false {p : Char → Bool} :
    ∀ {l : List Char} {y : Char}, (l.dropWhile p).head? = some y → p y = false := by
  intro l
  induction l with
  | nil => intro y h; simp at h
  | cons x xs ih =>
    intro y h
    by_cases hx : p x = true
    · rw [List.dropWhile_cons_of_pos hx] at h
      exact ih h
    · rw [List.dropWhile_cons_of_neg hx] at h
      have : x = y := by simpa using h
      subst this
      simpa using hx

theorem dropWhile_idem {p : Char → Bool} (l : List Char) :
    (l.dropWhile p).dropWhile p = l.dropWhile p := by
  cases hc : l.dropWhile p with
  | nil => rfl
  | cons y t =>
    have hy : p y = false := head?_dropWhile_false (by rw [hc]; rfl)
    exact List.dropWhile_cons_of_neg (by simp [hy])

theorem stripEnds_head_false {p : Char → Bool} {l : List Char} {y : Char}
    (h : (stripEnds p l).head? = some y) : p y = false := by
  have hpre : stripEnds p l <+: l.dropWhile p := by
    unfold stripEnds
    have hsfx := List.dropWhile_suffix (l := (l.dropWhile p).reverse) p
    conv_rhs => rw [← List.reverse_reverse (l.dropWhile p)]
    exact List.reverse_prefix.mpr hsfx
  rcases hpre with ⟨t, ht⟩
  cases hse : stripEnds p l with
  | nil => rw [hse] at h; simp at h
  | cons z zs =>
    rw [hse] at h ht
    have hzy : z = y := by simpa using h
    subst hzy
    exact head?_dropWhile_false (l := l) (by rw [← ht]; rfl)

theorem stripEnds_idem {p : Char → Bool} (l : List Char) :
    stripEnds p (stripEnds p l) = stripEnds p l := by
  have h1 : (stripEnds p l).dropWhile p = stripEnds p l := by
    cases hc : stripEnds p l with
    | nil => rfl
    | cons y t =>
      have hy : p y = false := stripEnds_head_false (by rw [hc]; rfl)
      exact List.dropWhile_cons_of_neg (by simp [hy])
  show ((((stripEnds p l).dropWhile p).reverse).dropWhile p).reverse = stripEnds p l
  rw [h1]
  show ((((l.dropWhile p).reverse.dropWhile p).reverse).reverse.dropWhile p).reverse
    = stripEnds p l
  rw [List.reverse_reverse, dropWhile_idem]
  rfl

theorem map_toUpper_eq_self {l : List Char} (h : ∀ c ∈ l, sanChar c = true) :
    l.map Char.toUpper = l := by
  induction l with
  | nil => rfl
  | cons x xs ih =>
    rw [List.map_cons, sanChar_toUpper (h x (List.mem_cons_self x xs)),
      ih (fun c hc => h c (List.mem_cons_of_mem x hc))]

theorem sanitizeCore_chars {l : List Char} {c : Char} (h : c ∈ sanitizeCore l) :
    sanChar c = true := by
  unfold sanitizeCore at h
  have h2 := mem_stripEnds h
  rcases mem_collapseDashAux h2 with h3 | h3
  · exact mem_replBadAux h3
  · rw [h3]; decide

theorem sanitizeCore_idem (l : List Char) :
    sanitizeCore (sanitizeCore l) = sanitizeCore l := by
  have hchars : ∀ c ∈ sanitizeCore l, sanChar c = true :=
    fun c hc => sanitizeCore_chars hc
  have h1 : stripEnds isPyWS (sanitizeCore l) = sanitizeCore l :=
    stripEnds_eq_self_of_all (fun c hc => sanChar_not_pyWS (hchars c hc))
  have h2 : (sanitizeCore l).map Char.toUpper = sanitizeCore l :=
    map_toUpper_eq_self hchars
  have h3 : replBad (sanitizeCore l) = sanitizeCore l :=
    (replBadAux_eq_self hchars false : replBadAux false (sanitizeCore l) = sanitizeCore l)
  have h4 : collapseDash (sanitizeCore l) = sanitizeCore l :=
    (collapseDashAux_eq_self
      (noDD_stripEnds (collapseDashAux_noDD false _))).1
  have h5 : stripEnds isStripSet (sanitizeCore l) = sanitizeCore l :=
    stripEnds_idem (p := isStripSet)
      (collapseDash (replBad ((stripEnds isPyWS l).map Char.toUpper)))
  show stripEnds isStripSet
    (collapseDash (replBad ((stripEnds isPyWS (sanitizeCore l)).map Char.toUpper)))
    = sanitizeCore l
  rw [h1, h2, h3, h4, h5]

/-- C7: sanitization is idempotent: for every string `s`,
`sanitize_model_code (sanitize_model_code s) = sanitize_model_code s`; in
particular applying the sanitizer to an already-sanitized code returns it
unchanged. -/
theorem sanitize_model_code_idempotent (s : String) :
    sanitize_model_code (sanitize_model_code s) = sanitize_model_code s := by
  by_cases h : sanitizeCore s.data = []
  · have hs : sanitize_model_code s = "UNKNOWN" := by
      simp only [sanitize_model_code, h, if_pos]
    rw [hs]
    decide
  · have hs : sanitize_model_code s = String.mk (sanitizeCore s.data) := by
      simp only [sanitize_model_code, if_neg h]
    rw [hs]
    have hd : (String.mk (sanitizeCore s.data)).data = sanitizeCore s.data := rfl
    simp only [sanitize_model_code, hd, sanitizeCore_idem, if_neg h]

/-- C2 counterexample: on the spec's second and third examples the embedded
`guess_model_from_filename` does not return the claimed values: the dot is
part of the token character class, so the labeled match captures
`D5301-1.jpg` whole, and `ABC_002` matches the bare-token pattern before the
split-on-underscore fallback is ever reached. -/
theorem guess_model_spec_examples_false :
    ¬ (guess_model_from_filename "model-D5301-1.jpg" = "D5301-1" ∧
       guess_model_from_filename "ABC_002.png" = "ABC") := by
  decide

/-- C2 amended: filename extraction is a deterministic pure function of the
filename, and on the spec's three examples returns `unknown`, `D5301-1.jpg`
and `ABC_002` respectively. -/
theorem guess_model_examples_correct :
    (∀ n₁ n₂ : String, n₁ = n₂ →
      guess_model_from_filename n₁ = guess_model_from_filename n₂) ∧
    guess_model_from_filename "IMG_1234.heic" = "unknown" ∧
    guess_model_from_filename "model-D5301-1.jpg" = "D5301-1.jpg" ∧
    guess_model_from_filename "ABC_002.png" = "ABC_002" :=
  ⟨fun _ _ h => by rw [h], by decide, by decide, by decide⟩

theorem guess_model_examples_correct_witness :
    guess_model_from_filename "IMG_1234.heic" =
      guess_model_from_filename "IMG_1234.heic" :=
  guess_model_examples_correct.1 "IMG_1234.heic" "IMG_1234.heic" rfl

/-- C3 counterexample: `extract_model_from_text "MADE IN CHINA XL"` is not
`unknown`: the leading-token heuristic fires on `MADE` before the blacklist
filter is ever consulted. -/
theorem extract_text_blacklist_claim_false :
    ¬ extract_model_from_text "MADE IN CHINA XL" = "unknown" := by
  decide

/-- C3 amended: for the text `"MADE IN CHINA XL"` the embedded
`extract_model_from_text` returns `"MADE"`: the leading-token branch
(which rejects only the `IMG_<digits>` shape, not the blacklist) accepts the
first token of the text. -/
theorem extract_text_made_in_china_eq_made :
    extract_model_from_text "MADE IN CHINA XL" = "MADE" := by
  decide

/-! ### Lemmas about the cache -/

theorem lookupStr_setStr_self {α : Type} (m : List (String × α)) (k : String)
    (v : α) : lookupStr (setStr m k v) k = some v := by
  induction m with
  | nil => simp [setStr, lookupStr]
  | cons e rest ih =>
    unfold setStr
    by_cases he : e.1 = k
    · rw [if_pos he]
      simp [lookupStr]
    · rw [if_neg he]
      unfold lookupStr
      rw [if_neg he]
      exact ih

theorem lookupStr_setStr_other {α : Type} (m : List (String × α))
    (k k' : String) (v : α) (h : ¬ k' = k) :
    lookupStr (setStr m k v) k' = lookupStr m k' := by
  have h2 : ¬ k = k' := fun e => h e.symm
  induction m with
  | nil => simp [setStr, lookupStr, h2]
  | cons e rest ih =>
    unfold setStr
    by_cases he : e.1 = k
    · rw [if_pos he]
      unfold lookupStr
      rw [if_neg (fun e2 => h e2.symm), if_neg (by rw [he]; exact fun e2 => h e2.symm)]
    · rw [if_neg he]
      unfold lookupStr
      by_cases he2 : e.1 = k'
      · rw [if_pos he2, if_pos he2]
      · rw [if_neg he2, if_neg he2]
        exact ih

theorem cacheGet_put_self (c : OcrCache) (p : String) (t : Int) (x : String) :
    cacheGet (cachePut c p t x) p t = some x := by
  unfold cacheGet cachePut
  rw [lookupStr_setStr_self]
  simp [lookupStr]

theorem cacheGet_put_other_mtime (c : OcrCache) (p : String) (t t' : Int)
    (x : String) (h : ¬ t' = t) :
    cacheGet (cachePut c p t x) p t' = none := by
  have h2 : ¬ t = t' := fun e => h e.symm
  unfold cacheGet cachePut
  rw [lookupStr_setStr_self]
  simp [lookupStr, h2]

/-- C8: a cache `get` hits only when a stored entry exists, is well-formed
(a dict with an integer `mtime` and string `text`), and its stored mtime is
exactly the supplied one; an absent key, a non-dict entry, or a different
mtime is a miss; after a `put`, the same mtime hits with the stored text and
any other mtime misses. -/
theorem cache_get_put_semantics :
    (∀ (c : OcrCache) (p : String) (t : Int) (x : String),
       cacheGet (cachePut c p t x) p t = some x) ∧
    (∀ (c : OcrCache) (p : String) (t t' : Int) (x : String),
       ¬ t' = t → cacheGet (cachePut c p t x) p t' = none) ∧
    (∀ (c : OcrCache) (p : String) (t : Int),
       lookupStr c p = none → cacheGet c p t = none) ∧
    (∀ (c : OcrCache) (p : String) (t : Int) (s : String),
       lookupStr c p = some (JsonV.jstr s) → cacheGet c p t = none) ∧
    (∀ (c : OcrCache) (p : String) (t : Int) (x : String),
       cacheGet (cachePut c p t x) p (t + 1) = none) := by
  refine ⟨cacheGet_put_self, cacheGet_put_other_mtime, ?_, ?_, ?_⟩
  · intro c p t h
    unfold cacheGet
    rw [h]
  · intro c p t s h
    unfold cacheGet
    rw [h]
  · intro c p t x
    exact cacheGet_put_other_mtime c p t (t + 1) x (by omega)

theorem cache_get_put_semantics_witness :
    cacheGet (cachePut [] "inbox/a.jpg" 3 "txt") "inbox/a.jpg" 3 = some "txt" ∧
    cacheGet (cachePut [] "inbox/a.jpg" 3 "txt") "inbox/a.jpg" 4 = none :=
  ⟨cache_get_put_semantics.1 [] "inbox/a.jpg" 3 "txt",
   cache_get_put_semantics.2.1 [] "inbox/a.jpg" 3 4 "txt" (by decide)⟩

/-- C9: on a cache miss, a failed recognition invocation (modelled as
`runSwift = none`, covering process errors, timeouts and decode failures)
yields the empty string rather than an error; the empty outcome is written to
the cache under the current mtime before returning, and a later call on the
same unchanged file hits the cache without invoking the process again. -/
theorem ocr_failure_cached_empty (cache : OcrCache) (key : String) (t : Int)
    (h : cacheGet cache key t = none) :
    ocr_text_for_image none (some t) key cache =
      Except.ok ⟨"", cachePut cache key t "", true⟩ ∧
    cacheGet (cachePut cache key t "") key t = some "" ∧
    (∀ runSwift2 : Option String,
      ocr_text_for_image runSwift2 (some t) key (cachePut cache key t "") =
        Except.ok ⟨"", cachePut cache key t "", false⟩) := by
  refine ⟨?_, cacheGet_put_self cache key t "", ?_⟩
  · simp only [ocr_text_for_image, h]
    rfl
  · intro runSwift2
    simp only [ocr_text_for_image, cacheGet_put_self cache key t ""]

theorem ocr_failure_cached_empty_witness :
    ocr_text_for_image none (some 7) "assets/unknown/x.jpg" [] =
      Except.ok ⟨"", cachePut [] "assets/unknown/x.jpg" 7 "", true⟩ :=
  (ocr_failure_cached_empty [] "assets/unknown/x.jpg" 7 rfl).1

/-- C10: recognition requires the asset to exist: when the stat of the asset
path fails (the file is absent), `ocr_text_for_image` propagates the error
instead of returning empty text, because the stat precedes the
exception-guarded subprocess region; no cache entry is consulted or written. -/
theorem ocr_missing_file_propagates :
    ∀ (runSwift : Option String) (key : String) (cache : OcrCache),
      ocr_text_for_image runSwift none key cache = Except.error () :=
  fun _ _ _ => rfl

/-! ### Lemmas about the publisher -/

theorem needs_update_iff (e : Option Nat) (m : Nat) :
    needs_update e m = true ↔ e = none ∨ ∃ k, e = some k ∧ k < m := by
  cases e with
  | none => simp [needs_update]
  | some k => simp [needs_update]

theorem needs_update_false_iff (e : Option Nat) (m : Nat) :
    needs_update e m = false ↔ ∃ k, e = some k ∧ m ≤ k := by
  cases e with
  | none => simp [needs_update]
  | some k => simp [needs_update]

theorem lookupA_assetSet (A : AssetMap) (k k' : String × String) (v : Nat) :
    lookupA (assetSet A k v) k' = if k = k' then some v else lookupA A k' := by
  induction A with
  | nil =>
    by_cases h : k = k'
    · simp [assetSet, lookupA, h]
    · simp [assetSet, lookupA, h]
  | cons e rest ih =>
    unfold assetSet
    by_cases he : e.1 = k
    · rw [if_pos he]
      show (if k = k' then some v else lookupA rest k')
        = if k = k' then some v else lookupA (e :: rest) k'
      by_cases h2 : k = k'
      · rw [if_pos h2, if_pos h2]
      · rw [if_neg h2, if_neg h2]
        show lookupA rest k' = if e.1 = k' then some e.2 else lookupA rest k'
        rw [if_neg (fun x => h2 (he.symm.trans x))]
    · rw [if_neg he]
      show (if e.1 = k' then some e.2 else lookupA (assetSet rest k v) k')
        = if k = k' then some v else lookupA (e :: rest) k'
      by_cases h2 : e.1 = k'
      · rw [if_pos h2, if_neg (fun x => he (h2.trans x.symm))]
        show some e.2 = if e.1 = k' then some e.2 else lookupA rest k'
        rw [if_pos h2]
      · rw [if_neg h2, ih]
        by_cases h3 : k = k'
        · rw [if_pos h3, if_pos h3]
        · rw [if_neg h3, if_neg h3]
          show lookupA rest k' = if e.1 = k' then some e.2 else lookupA rest k'
          rw [if_neg h2]

/-- Freshness of both renditions of one (bucket, file) pair. -/
def FreshFor (L T : AssetMap) (p : String × SrcFile) : Prop :=
  (∃ m, lookupA L (p.1, pathStem p.2.name) = some m ∧ p.2.mtime ≤ m) ∧
  (∃ m, lookupA T (p.1, pathStem p.2.name) = some m ∧ p.2.mtime ≤ m)

theorem publishStep_noop {L T : AssetMap} {ops : List ROp} {now : Nat}
    {p : String × SrcFile} (h : FreshFor L T p) :
    publishStep now (L, T, ops) p = (L, T, ops) := by
  obtain ⟨⟨mL, hL, hmL⟩, ⟨mT, hT, hmT⟩⟩ := h
  have h1 : needs_update (lookupA L (p.1, pathStem p.2.name)) p.2.mtime = false := by
    rw [hL, needs_update_false_iff]; exact ⟨mL, rfl, hmL⟩
  have h2 : needs_update (lookupA T (p.1, pathStem p.2.name)) p.2.mtime = false := by
    rw [hT, needs_update_false_iff]; exact ⟨mT, rfl, hmT⟩
  simp [publishStep, h1, h2]

theorem publishStep_state (now : Nat) (acc : AssetMap × AssetMap × List ROp)
    (p : String × SrcFile) :
    ∃ opsNew,
      (publishStep now acc p).1 =
        (if needs_update (lookupA acc.1 (p.1, pathStem p.2.name)) p.2.mtime
         then assetSet acc.1 (p.1, pathStem p.2.name) now else acc.1) ∧
      (publishStep now acc p).2.1 =
        (if needs_update (lookupA acc.2.1 (p.1, pathStem p.2.name)) p.2.mtime
         then assetSet acc.2.1 (p.1, pathStem p.2.name) now else acc.2.1) ∧
      (publishStep now acc p).2.2 = acc.2.2 ++ opsNew := by
  unfold publishStep
  by_cases h1 : needs_update (lookupA acc.1 (p.1, pathStem p.2.name)) p.2.mtime
  · by_cases h2 : needs_update (lookupA acc.2.1 (p.1, pathStem p.2.name)) p.2.mtime
    · exact ⟨[⟨p.1, pathStem p.2.name, false⟩, ⟨p.1, pathStem p.2.name, true⟩],
        by simp [h1, h2]⟩
    · exact ⟨[⟨p.1, pathStem p.2.name, false⟩], by simp [h1, h2]⟩
  · by_cases h2 : needs_update (lookupA acc.2.1 (p.1, pathStem p.2.name)) p.2.mtime
    · exact ⟨[⟨p.1, pathStem p.2.name, true⟩], by simp [h1, h2]⟩
    · exact ⟨[], by simp [h1, h2]⟩

/-- After one publish step, an association-map entry is either unchanged or
stamped `now`. -/
theorem publishStep_lookup (now : Nat) (acc : AssetMap × AssetMap × List ROp)
    (p : String × SrcFile) (k : String × String) :
    (lookupA (publishStep now acc p).1 k = lookupA acc.1 k ∨
     lookupA (publishStep now acc p).1 k = some now) ∧
    (lookupA (publishStep now acc p).2.1 k = lookupA acc.2.1 k ∨
     lookupA (publishStep now acc p).2.1 k = some now) := by
  obtain ⟨ops, hL, hT, _⟩ := publishStep_state now acc p
  constructor
  · rw [hL]
    by_cases h1 : needs_update (lookupA acc.1 (p.1, pathStem p.2.name)) p.2.mtime
    · rw [if_pos h1, lookupA_assetSet]
      by_cases hk : (p.1, pathStem p.2.name) = k
      · exact Or.inr (by rw [if_pos hk])
      · exact Or.inl (by rw [if_neg hk])
    · exact Or.inl (by rw [if_neg h1])
  · rw [hT]
    by_cases h1 : needs_update (lookupA acc.2.1 (p.1, pathStem p.2.name)) p.2.mtime
    · rw [if_pos h1, lookupA_assetSet]
      by_cases hk : (p.1, pathStem p.2.name) = k
      · exact Or.inr (by rw [if_pos hk])
      · exact Or.inl (by rw [if_neg hk])
    · exact Or.inl (by rw [if_neg h1])

/-- After one publish step at time `now ≥` the file's mtime, the pair is
fresh. -/
theorem publishStep_fresh {now : Nat} {acc : AssetMap × AssetMap × List ROp}
    {p : String × SrcFile} (h : p.2.mtime ≤ now) :
    FreshFor (publishStep now acc p).1 (publishStep now acc p).2.1 p := by
  obtain ⟨ops, hL, hT, _⟩ := publishStep_state now acc p
  constructor
  · rw [hL]
    by_cases h1 : needs_update (lookupA acc.1 (p.1, pathStem p.2.name)) p.2.mtime
    · rw [if_pos h1, lookupA_assetSet, if_pos rfl]
      exact ⟨now, rfl, h⟩
    · rw [if_neg h1]
      obtain ⟨k, hk, hmk⟩ := (needs_update_false_iff _ _).mp (by simpa using h1)
      exact ⟨k, hk, hmk⟩
  · rw [hT]
    by_cases h1 : needs_update (lookupA acc.2.1 (p.1, pathStem p.2.name)) p.2.mtime
    · rw [if_pos h1, lookupA_assetSet, if_pos rfl]
      exact ⟨now, rfl, h⟩
    · rw [if_neg h1]
      obtain ⟨k, hk, hmk⟩ := (needs_update_false_iff _ _).mp (by simpa using h1)
      exact ⟨k, hk, hmk⟩

/-- A fresh pair stays fresh through later publish steps at a time that is no
older than its source. -/
theorem publishStep_preserves_fresh {now : Nat} {p : String × SrcFile}
    (acc : AssetMap × AssetMap × List ROp) (q : String × SrcFile)
    (hf : FreshFor acc.1 acc.2.1 p) (hnow : p.2.mtime ≤ now) :
    FreshFor (publishStep now acc q).1 (publishStep now acc q).2.1 p := by
  obtain ⟨⟨mL, hL, hmL⟩, ⟨mT, hT, hmT⟩⟩ := hf
  obtain ⟨hLk, hTk⟩ :=
    publishStep_lookup now acc q (p.1, pathStem p.2.name)
  constructor
  · rcases hLk with h | h
    · exact ⟨mL, by rw [h]; exact hL, hmL⟩
    · exact ⟨now, h, hnow⟩
  · rcases hTk with h | h
    · exact ⟨mT, by rw [h]; exact hT, hmT⟩
    · exact ⟨now, h, hnow⟩

theorem publishFold_noop {now : Nat} :
    ∀ {ps : List (String × SrcFile)} {L T : AssetMap} {ops : List ROp},
      (∀ p ∈ ps, FreshFor L T p) →
      ps.foldl (publishStep now) (L, T, ops) = (L, T, ops) := by
  intro ps
  induction ps with
  | nil => intro L T ops _; rfl
  | cons q qs ih =>
    intro L T ops h
    rw [List.foldl_cons, publishStep_noop (h q (List.mem_cons_self q qs))]
    exact ih (fun p hp => h p (List.mem_cons_of_mem q hp))

theorem publishFold_fresh {now : Nat} :
    ∀ {ps : List (String × SrcFile)} {L T : AssetMap} {ops : List ROp},
      (∀ p ∈ ps, p.2.mtime ≤ now) →
      ∀ p ∈ ps,
        FreshFor (ps.foldl (publishStep now) (L, T, ops)).1
          (ps.foldl (publishStep now) (L, T, ops)).2.1 p := by
  intro ps
  induction ps with
  | nil => intro L T ops _ p hp; simp at hp
  | cons q qs ih =>
    intro L T ops h p hp
    rw [List.foldl_cons]
    rcases List.mem_cons.mp hp with rfl | hp2
    · -- the file itself: fresh after its own step, preserved by the rest
      have h0 : FreshFor (publishStep now (L, T, ops) p).1
          (publishStep now (L, T, ops) p).2.1 p :=
        publishStep_fresh (h p (List.mem_cons_self p qs))
      have hmt := h p (List.mem_cons_self p qs)
      clear hp h ih
      generalize hacc : publishStep now (L, T, ops) p = acc at h0 ⊢
      clear hacc
      induction qs generalizing acc with
      | nil => exact h0
      | cons r rs ih2 =>
        rw [List.foldl_cons]
        exact ih2 _ (publishStep_preserves_fresh acc r h0 hmt)
    · exact ih (fun r hr => h r (List.mem_cons_of_mem q hr)) p hp2

/-- A second publish pass over the same buckets, after one pass at a time no
older than every source, changes nothing and performs no image work. -/
theorem publishPass_idem (bs : Buckets) (L T : AssetMap) (now now' : Nat)
    (h : ∀ p ∈ bucketPairs bs, p.2.mtime ≤ now) :
    publishPass bs (publishPass bs L T now).1 (publishPass bs L T now).2.1 now'
      = ((publishPass bs L T now).1, (publishPass bs L T now).2.1, []) := by
  unfold publishPass
  apply publishFold_noop
  intro p hp
  exact @publishFold_fresh now (bucketPairs bs) L T [] h p hp

/-- C4: for every file and each of its two renditions, the publish step
regenerates the rendition if and only if it does not exist or its mtime is
strictly older than the source's; a fresh pair is left untouched, so a second
publish pass with unchanged sources performs no image work; and raising a
source's mtime strictly above a rendition's mtime regenerates that rendition
on the next call. -/
theorem publish_freshness_gating (L T : AssetMap) (b : String) (f : SrcFile)
    (now : Nat) :
    ((⟨b, pathStem f.name, false⟩ : ROp) ∈ (publishStep now (L, T, []) (b, f)).2.2 ↔
       lookupA L (b, pathStem f.name) = none ∨
       ∃ m, lookupA L (b, pathStem f.name) = some m ∧ m < f.mtime) ∧
    ((⟨b, pathStem f.name, true⟩ : ROp) ∈ (publishStep now (L, T, []) (b, f)).2.2 ↔
       lookupA T (b, pathStem f.name) = none ∨
       ∃ m, lookupA T (b, pathStem f.name) = some m ∧ m < f.mtime) ∧
    (∀ (bs : Buckets) (now' : Nat), (∀ p ∈ bucketPairs bs, p.2.mtime ≤ now) →
      publishPass bs (publishPass bs L T now).1 (publishPass bs L T now).2.1 now'
        = ((publishPass bs L T now).1, (publishPass bs L T now).2.1, [])) ∧
    (∀ m m' : Nat, lookupA L (b, pathStem f.name) = some m → m < m' →
      (⟨b, pathStem f.name, false⟩ : ROp) ∈
        (publishStep now (L, T, []) (b, ⟨f.name, m'⟩)).2.2) := by
  have hmem : ∀ (thumb : Bool) (A A' : AssetMap) (g : SrcFile),
      ((⟨b, pathStem g.name, thumb⟩ : ROp) ∈
          (publishStep now (A, A', []) (b, g)).2.2 ↔
        needs_update
          (lookupA (if thumb then A' else A) (b, pathStem g.name)) g.mtime
          = true) := by
    intro thumb A A' g
    unfold publishStep
    by_cases h1 : needs_update (lookupA A (b, pathStem g.name)) g.mtime
    · by_cases h2 : needs_update (lookupA A' (b, pathStem g.name)) g.mtime
      · cases thumb <;> simp [h1, h2]
      · cases thumb <;> simp [h1, h2]
    · by_cases h2 : needs_update (lookupA A' (b, pathStem g.name)) g.mtime
      · cases thumb <;> simp [h1, h2]
      · cases thumb <;> simp [h1, h2]
  refine ⟨?_, ?_, ?_, ?_⟩
  · rw [hmem false L T f]
    simpa using needs_update_iff (lookupA L (b, pathStem f.name)) f.mtime
  · rw [hmem true L T f]
    simpa using needs_update_iff (lookupA T (b, pathStem f.name)) f.mtime
  · intro bs now' h
    exact publishPass_idem bs L T now now' h
  · intro m m' hm hlt
    rw [hmem false L T ⟨f.name, m'⟩]
    rw [needs_update_iff]
    exact Or.inr ⟨m, by simpa using hm, hlt⟩

theorem publish_freshness_gating_witness :
    publishPass [("B", [⟨"x.jpg", 10⟩])]
      (publishPass [("B", [⟨"x.jpg", 10⟩])] [] [] 20).1
      (publishPass [("B", [⟨"x.jpg", 10⟩])] [] [] 20).2.1 37
      = ((publishPass [("B", [⟨"x.jpg", 10⟩])] [] [] 20).1,
         (publishPass [("B", [⟨"x.jpg", 10⟩])] [] [] 20).2.1, []) :=
  (publish_freshness_gating [] [] "B" ⟨"x.jpg", 10⟩ 20).2.2.1
    [("B", [⟨"x.jpg", 10⟩])] 37 (by decide)

/-! ### Lemmas about buckets and the reconciliation loop -/

theorem lookupBucket_addToBucket_self (m : Buckets) (k : String) (f : SrcFile) :
    lookupBucket (addToBucket m k f) k
      = some ((lookupBucket m k).getD [] ++ [f]) := by
  induction m with
  | nil => simp [addToBucket, lookupBucket]
  | cons e rest ih =>
    unfold addToBucket
    by_cases he : e.1 = k
    · rw [if_pos he]
      unfold lookupBucket
      rw [if_pos he, if_pos he]
      rfl
    · rw [if_neg he]
      unfold lookupBucket
      rw [if_neg he, if_neg he]
      exact ih

theorem lookupBucket_addToBucket_other (m : Buckets) (k k' : String)
    (f : SrcFile) (h : ¬ k' = k) :
    lookupBucket (addToBucket m k f) k' = lookupBucket m k' := by
  have h2 : ¬ k = k' := fun x => h x.symm
  induction m with
  | nil => simp [addToBucket, lookupBucket, h2]
  | cons e rest ih =>
    unfold addToBucket
    by_cases he : e.1 = k
    · rw [if_pos he]
      have hne : ¬ e.1 = k' := fun x => h (he.symm.trans x).symm
      show (if e.1 = k' then some (e.2 ++ [f]) else lookupBucket rest k')
        = if e.1 = k' then some e.2 else lookupBucket rest k'
      rw [if_neg hne, if_neg hne]
    · rw [if_neg he]
      unfold lookupBucket
      by_cases h2 : e.1 = k'
      · rw [if_pos h2, if_pos h2]
      · rw [if_neg h2, if_neg h2]
        exact ih

theorem lookupBucket_addAll (fs : List SrcFile) (hne : fs ≠ []) :
    ∀ (m : Buckets) (k : String),
      lookupBucket (fs.foldl (fun acc f => addToBucket acc k f) m) k
        = some ((lookupBucket m k).getD [] ++ fs) := by
  induction fs with
  | nil => exact absurd rfl hne
  | cons f fs ih =>
    intro m k
    rw [List.foldl_cons]
    by_cases hfs : fs = []
    · subst hfs
      simp only [List.foldl_nil]
      rw [lookupBucket_addToBucket_self]
    · rw [ih hfs (addToBucket m k f) k, lookupBucket_addToBucket_self]
      simp

/-- Given every capped file's large rendition exists, the OCR loop succeeds
and its call log appends exactly the processed files, in order. -/
theorem ocrLoop_ok (swiftO : String → Option String) (L : AssetMap) :
    ∀ (fs : List SrcFile) (recl : Buckets) (cache : OcrCache)
      (calls : List SrcFile) (swifts : List String),
      (∀ f ∈ fs, (lookupA L ("unknown", pathStem f.name)).isSome) →
      ∃ recl2 cache2 swifts2,
        ocrLoop swiftO L fs recl cache calls swifts =
          Except.ok (recl2, cache2, calls ++ fs, swifts2) := by
  intro fs
  induction fs with
  | nil =>
    intro recl cache calls swifts _
    exact ⟨recl, cache, swifts, by simp [ocrLoop]⟩
  | cons f fs ih =>
    intro recl cache calls swifts h
    have hf := h f (List.mem_cons_self f fs)
    obtain ⟨mt, hmt⟩ := Option.isSome_iff_exists.mp hf
    have hocr : ∃ o : OcrOut,
        ocr_text_for_image (swiftO (largePath "unknown" (pathStem f.name)))
          ((lookupA L ("unknown", pathStem f.name)).map Int.ofNat)
          (largePath "unknown" (pathStem f.name)) cache = Except.ok o := by
      rw [hmt, Option.map_some']
      show ∃ o : OcrOut,
        (match cacheGet cache (largePath "unknown" (pathStem f.name))
            (Int.ofNat mt) with
         | some t =>
           Except.ok (⟨t, cache, false⟩ : OcrOut)
         | none =>
           Except.ok ⟨(swiftO (largePath "unknown" (pathStem f.name))).getD "",
             cachePut cache (largePath "unknown" (pathStem f.name)) (Int.ofNat mt)
               ((swiftO (largePath "unknown" (pathStem f.name))).getD ""), true⟩)
          = Except.ok o
      cases cacheGet cache (largePath "unknown" (pathStem f.name)) (Int.ofNat mt) with
      | some t => exact ⟨⟨t, cache, false⟩, rfl⟩
      | none =>
        exact ⟨⟨(swiftO (largePath "unknown" (pathStem f.name))).getD "",
          cachePut cache (largePath "unknown" (pathStem f.name)) (Int.ofNat mt)
            ((swiftO (largePath "unknown" (pathStem f.name))).getD ""), true⟩, rfl⟩
    obtain ⟨o, hocr⟩ := hocr
    obtain ⟨r2, c2, s2, hrec⟩ := ih
      (addToBucket recl (sanitize_model_code (extract_model_from_text o.text)) f)
      o.cache (calls ++ [f])
      (if o.invoked then swifts ++ [largePath "unknown" (pathStem f.name)] else swifts)
      (fun g hg => h g (List.mem_cons_of_mem f hg))
    refine ⟨r2, c2, s2, ?_⟩
    simp only [ocrLoop]
    rw [hocr]
    show ocrLoop swiftO L fs
        (addToBucket recl (sanitize_model_code (extract_model_from_text o.text)) f)
        o.cache (calls ++ [f])
        (if o.invoked = true then swifts ++ [largePath "unknown" (pathStem f.name)]
         else swifts)
      = Except.ok (r2, c2, calls ++ f :: fs, s2)
    rw [hrec]
    simp

/-- C5: with `N` unresolved files and a cap `k < N`, the reconciliation stage
passes exactly the first `k` files of the unresolved bucket, in scan order, to
recognition (`ocr_text_for_image`), and the remaining `N - k` files are
appended, in order, to the deferred sentinel bucket `UNKNOWN` without being
passed to recognition. -/
theorem reconcile_cap_exact (swiftO : String → Option String) (L : AssetMap)
    (cache : OcrCache) (files : List SrcFile) (cap : Nat)
    (hcap : cap < files.length)
    (hA : ∀ f ∈ files.take cap, (lookupA L ("unknown", pathStem f.name)).isSome)
    (hnd : files.Nodup) :
    ∃ recl2 cache2 swifts2,
      ocrLoop swiftO L (files.take cap) [] cache [] [] =
        Except.ok (recl2, cache2, files.take cap, swifts2) ∧
      (files.take cap).length = cap ∧
      (∃ pre, lookupBucket
          ((files.drop cap).foldl (fun acc f => addToBucket acc "UNKNOWN" f) recl2)
          "UNKNOWN" = some (pre ++ files.drop cap)) ∧
      ∀ f ∈ files.drop cap, f ∉ files.take cap := by
  obtain ⟨r2, c2, s2, hrec⟩ := ocrLoop_ok swiftO L (files.take cap) [] cache [] [] hA
  refine ⟨r2, c2, s2, by simpa using hrec, ?_, ?_, ?_⟩
  · rw [List.length_take]
    omega
  · have hdrop : files.drop cap ≠ [] := by
      intro hx
      have := List.length_drop cap files
      rw [hx] at this
      simp at this
      omega
    rw [lookupBucket_addAll (files.drop cap) hdrop r2 "UNKNOWN"]
    exact ⟨(lookupBucket r2 "UNKNOWN").getD [], rfl⟩
  · intro f hfd hft
    exact List.disjoint_take_drop hnd (Nat.le_refl cap) hft hfd

theorem reconcile_cap_exact_witness :
    ∃ recl2 cache2 swifts2,
      ocrLoop (fun _ => some "") [(("unknown", "a"), 5)]
          ([⟨"a.jpg", 1⟩, ⟨"b.jpg", 2⟩].take 1) [] [] [] [] =
        Except.ok (recl2, cache2, [⟨"a.jpg", 1⟩, ⟨"b.jpg", 2⟩].take 1, swifts2) :=
  match reconcile_cap_exact (fun _ => some "") [(("unknown", "a"), 5)] []
      [⟨"a.jpg", 1⟩, ⟨"b.jpg", 2⟩] 1 (by decide) (by decide) (by decide) with
  | ⟨r2, c2, s2, h1, _⟩ => ⟨r2, c2, s2, h1⟩

/-! ### Lemmas about the rebuilt final mapping -/

theorem lookupBucket_mem {m : Buckets} {k : String} {v : List SrcFile}
    (h : lookupBucket m k = some v) : (k, v) ∈ m := by
  induction m with
  | nil => cases h
  | cons e rest ih =>
    unfold lookupBucket at h
    by_cases he : e.1 = k
    · rw [if_pos he] at h
      obtain ⟨e1, e2⟩ := e
      simp only at he h
      injection h with h
      rw [← he, ← h]
      exact List.mem_cons_self _ _
    · rw [if_neg he] at h
      exact List.mem_cons_of_mem _ (ih h)

theorem lookupBucket_foldPairs (ps : List (String × SrcFile)) :
    ∀ (m : Buckets) (k : String),
      lookupBucket (ps.foldl (fun acc p => addToBucket acc p.1 p.2) m) k
        = if ((ps.filter (fun p => p.1 = k)).map Prod.snd) = []
          then lookupBucket m k
          else some ((lookupBucket m k).getD []
            ++ (ps.filter (fun p => p.1 = k)).map Prod.snd) := by
  induction ps with
  | nil => intro m k; simp
  | cons p ps ih =>
    intro m k
    rw [List.foldl_cons, ih (addToBucket m p.1 p.2) k]
    by_cases hk : p.1 = k
    · rw [List.filter_cons_of_pos (by simpa using hk), List.map_cons]
      rw [← hk, lookupBucket_addToBucket_self]
      by_cases hrest : (ps.filter (fun q => q.1 = p.1)).map Prod.snd = []
      · rw [hk] at hrest ⊢
        rw [if_pos hrest, if_neg (by simp)]
        simp [hrest]
      · rw [hk] at hrest ⊢
        rw [if_neg hrest, if_neg (by simp)]
        simp
    · rw [List.filter_cons_of_neg (by simpa using hk),
        lookupBucket_addToBucket_other m p.1 k p.2 (fun x => hk x.symm)]

theorem tmpPart_decomp {tmp : Buckets} {c : String} {fs : List SrcFile}
    (hmem : (c, fs) ∈ tmp) (hc : ¬ c = "unknown") :
    ∃ pre post,
      tmp.foldr (fun bk acc => if bk.1 = "unknown" then acc
        else bk.2.map (fun f => (sanitize_model_code bk.1, f)) ++ acc) []
      = pre ++ fs.map (fun f => (sanitize_model_code c, f)) ++ post := by
  induction tmp with
  | nil => cases hmem
  | cons bk rest ih =>
    rw [List.foldr_cons]
    rcases List.mem_cons.mp hmem with heq | hmem2
    · rw [← heq]
      exact ⟨[], rest.foldr (fun bk acc => if bk.1 = "unknown" then acc
        else bk.2.map (fun f => (sanitize_model_code bk.1, f)) ++ acc) [],
        by rw [if_neg hc]; simp⟩
    · obtain ⟨pre, post, hpp⟩ := ih hmem2
      rw [hpp]
      by_cases hbk : bk.1 = "unknown"
      · exact ⟨pre, post, by rw [if_pos hbk]⟩
      · exact ⟨bk.2.map (fun f => (sanitize_model_code bk.1, f)) ++ pre, post,
          by rw [if_neg hbk]; simp⟩

theorem mem_tmpPart {tmp : Buckets} {pr : String × SrcFile}
    (h : pr ∈ tmp.foldr (fun bk acc => if bk.1 = "unknown" then acc
        else bk.2.map (fun f => (sanitize_model_code bk.1, f)) ++ acc) []) :
    ∃ m fs0, (m, fs0) ∈ tmp ∧ ¬ m = "unknown" ∧
      pr.1 = sanitize_model_code m ∧ pr.2 ∈ fs0 := by
  induction tmp with
  | nil => cases h
  | cons bk rest ih =>
    rw [List.foldr_cons] at h
    by_cases hbk : bk.1 = "unknown"
    · rw [if_pos hbk] at h
      obtain ⟨m, fs0, hm, hmu, h1, h2⟩ := ih h
      exact ⟨m, fs0, List.mem_cons_of_mem _ hm, hmu, h1, h2⟩
    · rw [if_neg hbk] at h
      rcases List.mem_append.mp h with h | h
      · obtain ⟨f, hf, hpf⟩ := List.mem_map.mp h
        exact ⟨bk.1, bk.2, by simp, hbk, by rw [← hpf], by rw [← hpf]; exact hf⟩
      · obtain ⟨m, fs0, hm, hmu, h1, h2⟩ := ih h
        exact ⟨m, fs0, List.mem_cons_of_mem _ hm, hmu, h1, h2⟩

theorem mem_reclPart {recl : Buckets} {pr : String × SrcFile}
    (h : pr ∈ recl.foldr
        (fun bk acc => bk.2.map (fun f => (sanitize_model_code bk.1, f)) ++ acc) []) :
    ∃ m fs0, (m, fs0) ∈ recl ∧ pr.1 = sanitize_model_code m ∧ pr.2 ∈ fs0 := by
  induction recl with
  | nil => cases h
  | cons bk rest ih =>
    rw [List.foldr_cons] at h
    rcases List.mem_append.mp h with h | h
    · obtain ⟨f, hf, hpf⟩ := List.mem_map.mp h
      exact ⟨bk.1, bk.2, by simp, by rw [← hpf], by rw [← hpf]; exact hf⟩
    · obtain ⟨m, fs0, hm, h1, h2⟩ := ih h
      exact ⟨m, fs0, List.mem_cons_of_mem _ hm, h1, h2⟩

/-- C6 counterexample inbox: `abc_1.jpg` resolves from its filename to the
raw code `abc_1`, while `IMG_0001.jpg` is unresolved. -/
def cexC6_state : St :=
  ⟨[⟨"IMG_0001.jpg", 5⟩, ⟨"abc_1.jpg", 5⟩], [], [], []⟩

/-- The final mapping of one run on the C6 counterexample inbox, with OCR
returning no text. -/
def cexC6_mapping : Buckets :=
  match runPipeline (fun _ => some "") 4 100 cexC6_state with
  | Except.ok r => r.mapping
  | Except.error _ => []

/-- C6 counterexample: the Scanner produces the bucket code `abc_1` (other
than `unknown`), but the run's final identifier-to-files mapping does not
contain the key `abc_1` at all: the rebuild sanitizes every key, so the
bucket's files appear under `ABC_1` instead. -/
theorem final_mapping_drops_raw_scanner_key :
    lookupBucket (groupItems (scanItems cexC6_state.inbox)) "abc_1"
      = some [⟨"abc_1.jpg", 5⟩] ∧
    lookupBucket cexC6_mapping "abc_1" = none ∧
    lookupBucket cexC6_mapping "ABC_1" = some [⟨"abc_1.jpg", 5⟩] := by
  refine ⟨by decide, by decide, by decide⟩

/-- C6 amended: for every Scanner bucket `(c, fs)` with `c ≠ "unknown"` and
`fs` nonempty, the rebuilt final mapping contains the key
`sanitize_model_code c`; its file list contains the Scanner's ordered list
`fs` as a sublist, and every file in it originates either from a non-unknown
Scanner bucket or from a Reconciler bucket whose code sanitizes to the same
key. -/
theorem rebuild_key_sanitized_contains_scanner_files (tmp recl : Buckets)
    (c : String) (fs : List SrcFile) (h1 : lookupBucket tmp c = some fs)
    (h2 : ¬ c = "unknown") (h3 : fs ≠ []) :
    ∃ l, lookupBucket (rebuild tmp recl) (sanitize_model_code c) = some l ∧
      fs.Sublist l ∧
      ∀ f ∈ l,
        (∃ m fs0, (m, fs0) ∈ tmp ∧ ¬ m = "unknown" ∧
          sanitize_model_code m = sanitize_model_code c ∧ f ∈ fs0) ∨
        (∃ m fs0, (m, fs0) ∈ recl ∧
          sanitize_model_code m = sanitize_model_code c ∧ f ∈ fs0) := by
  obtain ⟨pre, post, hdec⟩ := tmpPart_decomp (lookupBucket_mem h1) h2
  have hpairs : rebuildPairs tmp recl
      = pre ++ (fs.map (fun f => (sanitize_model_code c, f)) ++ (post ++ recl.foldr
          (fun bk acc => bk.2.map (fun f => (sanitize_model_code bk.1, f)) ++ acc) [])) := by
    unfold rebuildPairs
    rw [hdec]
    simp [List.append_assoc]
  have hfilterBlock :
      (fs.map (fun f => (sanitize_model_code c, f))).filter
        (fun p => p.1 = sanitize_model_code c)
      = fs.map (fun f => (sanitize_model_code c, f)) := by
    rw [List.filter_eq_self]
    intro a ha
    obtain ⟨f, _, hpf⟩ := List.mem_map.mp ha
    rw [← hpf]
    simp
  have hmapBlock :
      (fs.map (fun f => (sanitize_model_code c, f))).map Prod.snd = fs := by
    rw [List.map_map]
    simp
  have hsplit : ((rebuildPairs tmp recl).filter
        (fun p => p.1 = sanitize_model_code c)).map Prod.snd
      = (pre.filter (fun (p : String × SrcFile) => p.1 = sanitize_model_code c)).map
          Prod.snd
        ++ (fs ++ (((post ++ recl.foldr
              (fun (bk : String × List SrcFile) (acc : List (String × SrcFile)) =>
                bk.2.map (fun f => (sanitize_model_code bk.1, f)) ++ acc) []).filter
            (fun p => p.1 = sanitize_model_code c)).map Prod.snd)) := by
    rw [hpairs, List.filter_append, List.filter_append, List.map_append,
      List.map_append, hfilterBlock, hmapBlock]
  have hne : ¬ (((rebuildPairs tmp recl).filter
      (fun p => p.1 = sanitize_model_code c)).map Prod.snd = []) := by
    rw [hsplit]
    intro hx
    rcases List.append_eq_nil.mp hx with ⟨_, hx2⟩
    rcases List.append_eq_nil.mp hx2 with ⟨hx3, _⟩
    exact h3 hx3
  have hlookup := lookupBucket_foldPairs (rebuildPairs tmp recl) []
    (sanitize_model_code c)
  rw [if_neg hne] at hlookup
  refine ⟨((rebuildPairs tmp recl).filter
      (fun p => p.1 = sanitize_model_code c)).map Prod.snd,
    by simpa using hlookup, ?_, ?_⟩
  · rw [hsplit]
    exact (List.sublist_append_left fs _).trans
      (List.sublist_append_right _ _)
  · intro f hf
    obtain ⟨pr, hpr, hprf⟩ := List.mem_map.mp hf
    have hfil := List.mem_filter.mp hpr
    have hprk : pr.1 = sanitize_model_code c := by simpa using hfil.2
    have hprmem := hfil.1
    unfold rebuildPairs at hprmem
    rcases List.mem_append.mp hprmem with hm | hm
    · obtain ⟨m, fs0, hin, hmu, hp1, hp2⟩ := mem_tmpPart hm
      exact Or.inl ⟨m, fs0, hin, hmu, by rw [← hp1, hprk], by rw [← hprf]; exact hp2⟩
    · obtain ⟨m, fs0, hin, hp1, hp2⟩ := mem_reclPart hm
      exact Or.inr ⟨m, fs0, hin, by rw [← hp1, hprk], by rw [← hprf]; exact hp2⟩

theorem rebuild_key_sanitized_contains_scanner_files_witness :
    ∃ l, lookupBucket
        (rebuild [("abc_1", [⟨"abc_1.jpg", 5⟩])] [("UNKNOWN", [⟨"IMG_0001.jpg", 5⟩])])
        (sanitize_model_code "abc_1") = some l ∧
      List.Sublist [⟨"abc_1.jpg", 5⟩] l ∧
      ∀ f ∈ l,
        (∃ m fs0, (m, fs0) ∈ [("abc_1", [(⟨"abc_1.jpg", 5⟩ : SrcFile)])] ∧
          ¬ m = "unknown" ∧
          sanitize_model_code m = sanitize_model_code "abc_1" ∧ f ∈ fs0) ∨
        (∃ m fs0, (m, fs0) ∈ [("UNKNOWN", [(⟨"IMG_0001.jpg", 5⟩ : SrcFile)])] ∧
          sanitize_model_code m = sanitize_model_code "abc_1" ∧ f ∈ fs0) :=
  rebuild_key_sanitized_contains_scanner_files
    [("abc_1", [⟨"abc_1.jpg", 5⟩])] [("UNKNOWN", [⟨"IMG_0001.jpg", 5⟩])]
    "abc_1" [⟨"abc_1.jpg", 5⟩] (by decide) (by decide) (by decide)

/-! ### Lemmas about the whole pipeline run -/

theorem lookupBucket_groupItems_none {k : String} :
    ∀ {items : List (String × SrcFile)} {m : Buckets},
      (∀ it ∈ items, ¬ it.1 = k) → lookupBucket m k = none →
      lookupBucket (items.foldl (fun acc it => addToBucket acc it.1 it.2) m) k
        = none := by
  intro items
  induction items with
  | nil => intro m _ hm; exact hm
  | cons it its ih =>
    intro m h hm
    rw [List.foldl_cons]
    exact ih (fun x hx => h x (List.mem_cons_of_mem it hx))
      (by rw [lookupBucket_addToBucket_other m it.1 k it.2
        (fun x => h it (List.mem_cons_self it its) x.symm)]; exact hm)

theorem mem_bucketPairs {bs : Buckets} {p : String × SrcFile}
    (h : p ∈ bucketPairs bs) : ∃ bk ∈ bs, p.2 ∈ bk.2 := by
  induction bs with
  | nil => cases h
  | cons bk rest ih =>
    rw [bucketPairs, List.foldr_cons] at h
    rcases List.mem_append.mp h with h | h
    · obtain ⟨f, hf, hpf⟩ := List.mem_map.mp h
      exact ⟨bk, List.mem_cons_self _ _, by rw [← hpf]; exact hf⟩
    · obtain ⟨bk2, hbk2, hf⟩ := ih h
      exact ⟨bk2, List.mem_cons_of_mem _ hbk2, hf⟩

theorem addToBucket_files {m : Buckets} {k : String} {x : SrcFile}
    {bk : String × List SrcFile} {f : SrcFile}
    (hbk : bk ∈ addToBucket m k x) (hf : f ∈ bk.2) :
    (∃ bk2 ∈ m, f ∈ bk2.2) ∨ f = x := by
  induction m with
  | nil =>
    simp only [addToBucket] at hbk
    rcases List.mem_cons.mp hbk with rfl | h2
    · simp only at hf
      rcases List.mem_cons.mp hf with rfl | h3
      · exact Or.inr rfl
      · cases h3
    · cases h2
  | cons e rest ih =>
    unfold addToBucket at hbk
    by_cases he : e.1 = k
    · rw [if_pos he] at hbk
      rcases List.mem_cons.mp hbk with rfl | h2
      · simp only at hf
        rcases List.mem_append.mp hf with h3 | h3
        · exact Or.inl ⟨e, List.mem_cons_self _ _, h3⟩
        · rcases List.mem_cons.mp h3 with rfl | h4
          · exact Or.inr rfl
          · cases h4
      · exact Or.inl ⟨bk, List.mem_cons_of_mem _ h2, hf⟩
    · rw [if_neg he] at hbk
      rcases List.mem_cons.mp hbk with rfl | h2
      · exact Or.inl ⟨_, List.mem_cons_self _ _, hf⟩
      · rcases ih h2 with ⟨bk2, hbk2, hf2⟩ | h3
        · exact Or.inl ⟨bk2, List.mem_cons_of_mem _ hbk2, hf2⟩
        · exact Or.inr h3

theorem groupItems_files :
    ∀ {items : List (String × SrcFile)} {m : Buckets}
      {bk : String × List SrcFile} {f : SrcFile},
      bk ∈ items.foldl (fun acc it => addToBucket acc it.1 it.2) m →
      f ∈ bk.2 →
      (∃ bk2 ∈ m, f ∈ bk2.2) ∨ ∃ it ∈ items, it.2 = f := by
  intro items
  induction items with
  | nil => intro m bk f hbk hf; exact Or.inl ⟨bk, hbk, hf⟩
  | cons it its ih =>
    intro m bk f hbk hf
    rw [List.foldl_cons] at hbk
    rcases ih hbk hf with ⟨bk2, hbk2, hf2⟩ | ⟨it2, hit2, hiteq⟩
    · rcases addToBucket_files hbk2 hf2 with ⟨bk3, hbk3, hf3⟩ | heq
      · exact Or.inl ⟨bk3, hbk3, hf3⟩
      · exact Or.inr ⟨it, List.mem_cons_self _ _, heq.symm⟩
    · exact Or.inr ⟨it2, List.mem_cons_of_mem _ hit2, hiteq⟩

theorem mem_insertByName {f g : SrcFile} :
    ∀ {l : List SrcFile}, g ∈ insertByName f l → g = f ∨ g ∈ l := by
  intro l
  induction l with
  | nil =>
    intro h
    rcases List.mem_cons.mp h with rfl | h2
    · exact Or.inl rfl
    · cases h2
  | cons x xs ih =>
    intro h
    unfold insertByName at h
    by_cases hlt : nameLt f.name x.name
    · rw [if_pos hlt] at h
      rcases List.mem_cons.mp h with rfl | h2
      · exact Or.inl rfl
      · exact Or.inr h2
    · rw [if_neg hlt] at h
      rcases List.mem_cons.mp h with rfl | h2
      · exact Or.inr (List.mem_cons_self _ _)
      · rcases ih h2 with h3 | h3
        · exact Or.inl h3
        · exact Or.inr (List.mem_cons_of_mem _ h3)

theorem mem_sortByName {g : SrcFile} :
    ∀ {l : List SrcFile}, g ∈ sortByName l → g ∈ l := by
  intro l
  induction l with
  | nil => intro h; cases h
  | cons x xs ih =>
    intro h
    rw [sortByName, List.foldr_cons] at h
    rcases mem_insertByName h with rfl | h2
    · exact List.mem_cons_self _ _
    · exact List.mem_cons_of_mem _ (ih h2)

theorem scanItems_mem {inbox : List SrcFile} {it : String × SrcFile}
    (h : it ∈ scanItems inbox) : it.2 ∈ inbox := by
  unfold scanItems at h
  obtain ⟨f, hf, hfeq⟩ := List.mem_map.mp h
  have := mem_sortByName hf
  rw [← hfeq]
  exact List.mem_filter.mp this |>.1

/-- C1 amended: when every scanned file resolves from its filename (the
Scanner produces no `unknown` bucket, so no OCR-driven re-bucketing or source
rename can occur), the pipeline is idempotent: the first run succeeds leaving
the inbox and cache untouched, and a second run with no external changes
returns the same state and mapping with an empty log — no resize, no
recognition call, no subprocess invocation, no rename. -/
theorem pipeline_idempotent_when_all_resolved
    (swiftO : String → Option String) (cap now1 now2 : Nat) (s : St)
    (hres : ∀ it ∈ scanItems s.inbox, ¬ it.1 = "unknown")
    (hmt : ∀ f ∈ s.inbox, f.mtime ≤ now1) :
    ∃ out1 : RunOut,
      runPipeline swiftO cap now1 s = Except.ok out1 ∧
      out1.state.inbox = s.inbox ∧
      out1.state.cache = s.cache ∧
      runPipeline swiftO cap now2 out1.state =
        Except.ok ⟨out1.state, out1.mapping, ⟨[], [], [], []⟩⟩ := by
  have hlook : lookupBucket (groupItems (scanItems s.inbox)) "unknown" = none :=
    lookupBucket_groupItems_none hres rfl
  have hmt2 : ∀ p ∈ bucketPairs (groupItems (scanItems s.inbox)),
      p.2.mtime ≤ now1 := by
    intro p hp
    obtain ⟨bk, hbk, hf⟩ := mem_bucketPairs hp
    rcases groupItems_files hbk hf with ⟨bk2, hbk2, _⟩ | ⟨it, hit, hiteq⟩
    · cases hbk2
    · exact hmt p.2 (hiteq ▸ scanItems_mem hit)
  refine ⟨⟨⟨s.inbox,
      (publishPass (groupItems (scanItems s.inbox)) s.largeA s.thumbA now1).1,
      (publishPass (groupItems (scanItems s.inbox)) s.largeA s.thumbA now1).2.1,
      s.cache⟩,
    groupItems (scanItems s.inbox),
    ⟨(publishPass (groupItems (scanItems s.inbox)) s.largeA s.thumbA now1).2.2,
      [], [], []⟩⟩, ?_, rfl, rfl, ?_⟩
  · simp only [runPipeline]
    rw [hlook]
  · simp only [runPipeline]
    rw [hlook, publishPass_idem (groupItems (scanItems s.inbox)) s.largeA
      s.thumbA now1 now2 hmt2]

theorem pipeline_idempotent_when_all_resolved_witness :
    ∃ out1 : RunOut,
      runPipeline (fun _ => some "") 4 100 ⟨[⟨"D5301-1.jpg", 10⟩], [], [], []⟩
        = Except.ok out1 ∧
      out1.state.inbox = [⟨"D5301-1.jpg", 10⟩] ∧
      out1.state.cache = [] ∧
      runPipeline (fun _ => some "") 4 200 out1.state =
        Except.ok ⟨out1.state, out1.mapping, ⟨[], [], [], []⟩⟩ :=
  pipeline_idempotent_when_all_resolved (fun _ => some "") 4 100 200
    ⟨[⟨"D5301-1.jpg", 10⟩], [], [], []⟩ (by decide) (by decide)

/-- C1 counterexample inbox: a single camera-roll file that OCR resolves. -/
def cexC1_state : St :=
  ⟨[⟨"IMG_0001.HEIC", 10⟩], [], [], []⟩

/-- The external recognizer for the C1 counterexample: the published large
rendition of `IMG_0001` reads `model D5301-2`. -/
def cexC1_swift : String → Option String := fun p =>
  if p = "assets/unknown/IMG_0001.jpg" then some "model D5301-2" else some ""

/-- The resize operations of the second run on the C1 counterexample. -/
def cexC1_secondResizes : List ROp :=
  match runPipeline cexC1_swift 4 100 cexC1_state with
  | Except.ok r =>
    match runPipeline cexC1_swift 4 200 r.state with
    | Except.ok r2 => r2.log.resizes
    | Except.error _ => []
  | Except.error _ => []

/-- C1 counterexample: after one complete run that OCR-resolves
`IMG_0001.HEIC` to `D5301-2` — migrating its renditions and renaming the
source to `D5301-2.HEIC` — a second run with no external changes regenerates
both renditions (under the renamed base `D5301-2`, while the migrated
`IMG_0001` renditions linger): the pipeline is not fully idempotent. -/
theorem pipeline_second_run_regenerates_after_rename :
    cexC1_secondResizes =
      [⟨"D5301-2", "D5301-2", false⟩, ⟨"D5301-2", "D5301-2", true⟩] ∧
    cexC1_secondResizes ≠ [] := by
  refine ⟨by decide, by decide⟩

end PhotoSite
